import Mathlib

/-!
Shallow embedding of the gin-queues buffering engine (src/main.go) and its
test harness (src/unnamed/part_000), together with proofs of the spec's
claims about it.

The engine is a sharded in-memory queue: `Job` owns 16 `Queue` shards, an
unsigned 32-bit distribution counter and an enabled flag.  `Job.Push` routes
a record to shard `(counter.Inc()) & qMask`; `Job.flush` drains every shard
and hands the drained rows to the storage backend in chunks of at most 1000.
Queues are modelled as Lean lists (push order = list order), the uint32
counter as a `Nat` reduced mod `2^32`, and the storage backend as a function
from the saved chunk to an optional error.
-/

/-- Size of the unsigned 32-bit integer range; the distribution counter
`qIndex` is a `uint32` in the source and wraps at this value. -/
def u32size : Nat := 2 ^ 32

/-- `requestPayload` from src/main.go: the record type, a single `Name` field. -/
structure requestPayload where
  Name : String
deriving DecidableEq, Repr

/-- `Queue.Push` from src/main.go: appends the record at the tail and
returns a nil error (a `Queue` is its `items` slice, modelled as a list). -/
def Queue.Push (q : List requestPayload) (r : requestPayload) :
    List requestPayload × Option String :=
  (q ++ [r], none)

/-- `Queue.Len` from src/main.go: the number of pending items. -/
def Queue.Len (q : List requestPayload) : Nat :=
  q.length

/-- `Queue.Clear` from src/main.go: reads the current length, returns the
prefix of that many items and keeps the suffix.  First component: the
drained rows; second component: the items remaining in the queue. -/
def Queue.Clear (q : List requestPayload) :
    List requestPayload × List requestPayload :=
  let length := Queue.Len q
  (q.take length, q.drop length)

/-- `NewQueue` from src/main.go: a queue with an empty items slice. -/
def NewQueue : List requestPayload := []

/-- `NewQueues` from src/main.go: a slice of `size` fresh empty queues. -/
def NewQueues (size : Nat) : List (List requestPayload) :=
  List.replicate size NewQueue

/-- The `Job` struct from src/main.go: the enabled flag, the uint32
distribution counter `qIndex`, the mask `qMask` and the shard slice
`queues`.  The `context.Context`/`finish` pair and the `Storage` interface
field are modelled separately (the backend is passed to `Job.flush` as a
function). -/
structure Job where
  enabled : Bool
  qIndex : Nat
  qMask : Nat
  queues : List (List requestPayload)
deriving DecidableEq, Repr

/-- `numQueues` from `NewJob` in src/main.go. -/
def numQueues : Nat := 16

/-- `NewJob` from src/main.go: enabled, counter at 0, mask `numQueues - 1`,
16 empty shards. -/
def NewJob : Job :=
  { enabled := true
    qIndex := 0
    qMask := numQueues - 1
    queues := NewQueues numQueues }

/-- `errJobDisabled` from src/main.go. -/
def errJobDisabled : String := "job disabled"

/-- The shard index the next push will use: `j.qIndex.Inc() & j.qMask`,
where `Inc` increments the uint32 counter and returns the new value. -/
def Job.pushIdx (j : Job) : Nat :=
  ((j.qIndex + 1) % u32size) &&& j.qMask

/-- `Job.Push` from src/main.go: when enabled, increment the counter, mask
it to pick a shard, and push onto that shard (returning its nil error);
when disabled, return `errJobDisabled` and touch nothing. -/
def Job.Push (j : Job) (r : requestPayload) : Job × Option String :=
  if j.enabled then
    let idx := j.pushIdx
    let res := Queue.Push (j.queues.getD idx []) r
    ({ j with qIndex := (j.qIndex + 1) % u32size
              queues := j.queues.set idx res.1 }, res.2)
  else
    (j, some errJobDisabled)

/-- The inner loop of `Job.flush` from src/main.go for the rows drained
from one shard: while rows remain, take `batchInsertSize = min 1000 |rows|`
rows, call `save` on them (collecting the logged error, if any), and
continue with the rest.  Returns the list of save calls made, in order, and
the list of logged errors. -/
def flushQueueLoop (save : List requestPayload → Option String) :
    List requestPayload → List (List requestPayload) × List String
  | [] => ([], [])
  | r :: rows =>
    let batchInsertSize :=
      if (r :: rows).length < 1000 then (r :: rows).length else 1000
    let chunk := (r :: rows).take batchInsertSize
    let rest := flushQueueLoop save ((r :: rows).drop batchInsertSize)
    (chunk :: rest.1,
      (match save chunk with
       | some e => [e]
       | none => []) ++ rest.2)
  termination_by rows => rows.length
  decreasing_by
    simp only [List.length_drop]
    split
    · simp
    · simp
      omega

/-- `Job.flush` from src/main.go: for each shard in order, `Clear` it and
run the chunked save loop on the drained rows.  Returns the job after the
flush (all shards left as `Clear` leaves them), the backend save calls in
order, and the logged errors. -/
def Job.flush (save : List requestPayload → Option String) (j : Job) :
    Job × List (List requestPayload) × List String :=
  let results := j.queues.map (fun q =>
    ((Queue.Clear q).2, flushQueueLoop save (Queue.Clear q).1))
  ({ j with queues := results.map Prod.fst },
   (results.map (fun p => p.2.1)).flatten,
   (results.map (fun p => p.2.2)).flatten)

/-- `PostgresStore.Save` from src/main.go: an empty row list returns nil
without touching the database; otherwise one `ExecContext` bulk insert is
issued with the rows' names as arguments (`dbExec` models the database
handle, returning the opaque error of the insert, if any). -/
def PostgresStore.Save (dbExec : List String → Option String)
    (rows : List requestPayload) : Option String :=
  if rows.length = 0 then
    none
  else
    dbExec (rows.map (fun r => r.Name))

/-- Pushing a list of records one at a time, keeping the job state
(`job.Push(...)` iterated, as the test `TestJob` in src/unnamed/part_000
does). -/
def pushAll (j : Job) (rs : List requestPayload) : Job :=
  rs.foldl (fun s r => (Job.Push s r).1) j

/-- The events the `select` in `Job.Run` (src/main.go) can wake on: a
ticker tick or the cancellation of the context passed to `Run`. -/
inductive RunEvent
  | tick
  | cancel
deriving DecidableEq, Repr

/-- The observable actions `Job.Run` performs, in order: a full flush, the
`enabled.Store(false)`, and the deferred `finish()` that signals `Done`. -/
inductive RunAction
  | flushAll
  | disable
  | signalDone
deriving DecidableEq, Repr

/-- `Job.Run` from src/main.go over a finite event trace: each tick
triggers a flush and the loop continues; the first cancellation stores
`false` into `enabled`, performs one final flush, breaks the loop, and the
deferred `finish` fires.  Returns the final job state and the ordered
action trace.  An exhausted event list models a loop still blocked in
`select` (no actions, not done). -/
def runLoop (save : List requestPayload → Option String) :
    List RunEvent → Job → Job × List RunAction
  | [], j => (j, [])
  | RunEvent.tick :: es, j =>
    let j' := (Job.flush save j).1
    let rest := runLoop save es j'
    (rest.1, RunAction.flushAll :: rest.2)
  | RunEvent.cancel :: _, j =>
    let j1 := { j with enabled := false }
    let j2 := (Job.flush save j1).1
    (j2, [RunAction.disable, RunAction.flushAll, RunAction.signalDone])

/-- The `POST /ping` handler from `main` in src/main.go: with a decoded
payload in hand, it 500s when the db handle is nil, otherwise calls
`job.Push(r)` discarding its result and replies status 200 `"pong"`.
Returns the job after the call, the HTTP status and the body message. -/
def pingHandler (dbOk : Bool) (j : Job) (r : requestPayload) :
    Job × Nat × String :=
  if dbOk then
    let j' := (Job.Push j r).1
    (j', 200, "pong")
  else
    (j, 500, "")

/-! ### Basic lemmas about the shard operations -/

/-- `Queue.Clear` drains everything: it returns the whole pending list and
leaves the queue empty. -/
theorem Queue.Clear_eq (q : List requestPayload) : Queue.Clear q = (q, []) := by
  simp [Queue.Clear, Queue.Len]

/-! ### Lemmas about the chunked save loop -/

/-- The chunks handed to the backend concatenate back to exactly the
drained rows, in order. -/
theorem flushQueueLoop_flatten (save : List requestPayload → Option String)
    (rows : List requestPayload) :
    ((flushQueueLoop save rows).1).flatten = rows := by
  induction rows using flushQueueLoop.induct save with
  | case1 => simp [flushQueueLoop]
  | case2 r rows b ih =>
    have hb : b = if (r :: rows).length < 1000 then (r :: rows).length else 1000 := by
      simp [b]
    rw [flushQueueLoop]
    simp only [List.flatten_cons, ← hb]
    rw [ih]
    exact List.take_append_drop _ _

/-- The number of backend calls for one drained shard is `⌈M / 1000⌉`
(as `(M + 999) / 1000` in natural division). -/
theorem flushQueueLoop_length (save : List requestPayload → Option String)
    (rows : List requestPayload) :
    ((flushQueueLoop save rows).1).length = (rows.length + 999) / 1000 := by
  induction rows using flushQueueLoop.induct save with
  | case1 => simp [flushQueueLoop]
  | case2 r rows b ih =>
    have hb : b = if (r :: rows).length < 1000 then (r :: rows).length else 1000 := by
      simp [b]
    rw [hb] at ih
    rw [flushQueueLoop]
    simp only [List.length_cons, List.length_drop] at ih ⊢
    rw [ih]
    by_cases h : rows.length + 1 < 1000
    · rw [if_pos h]
      omega
    · rw [if_neg h]
      omega

/-- Every chunk handed to the backend is nonempty and holds at most 1000
records. -/
theorem flushQueueLoop_chunk_len (save : List requestPayload → Option String)
    (rows : List requestPayload) :
    ∀ c ∈ (flushQueueLoop save rows).1, 1 ≤ c.length ∧ c.length ≤ 1000 := by
  induction rows using flushQueueLoop.induct save with
  | case1 => simp [flushQueueLoop]
  | case2 r rows b ih =>
    have hb : b = if (r :: rows).length < 1000 then (r :: rows).length else 1000 := by
      simp [b]
    rw [hb] at ih
    rw [flushQueueLoop]
    intro c hc
    simp only [List.mem_cons] at hc
    rcases hc with rfl | hc
    · by_cases h : (r :: rows).length < 1000
      · rw [if_pos h]
        simp only [List.length_take, List.length_cons] at h ⊢
        omega
      · rw [if_neg h]
        simp only [List.length_take, List.length_cons] at h ⊢
        omega
    · exact ih c hc

/-- The sequence of backend calls does not depend on which chunks the
backend fails: a save error never changes what is subsequently saved. -/
theorem flushQueueLoop_calls_indep (s₁ s₂ : List requestPayload → Option String)
    (rows : List requestPayload) :
    (flushQueueLoop s₁ rows).1 = (flushQueueLoop s₂ rows).1 := by
  induction rows using flushQueueLoop.induct s₁ with
  | case1 => simp [flushQueueLoop]
  | case2 r rows b ih =>
    have hb : b = if (r :: rows).length < 1000 then (r :: rows).length else 1000 := by
      simp [b]
    rw [hb] at ih
    rw [flushQueueLoop, flushQueueLoop]
    simp only [List.cons.injEq]
    exact ⟨trivial, ih⟩

/-! ### Lemmas about `Job.Push` -/

/-- Pushing on a disabled job returns the `errJobDisabled` error and leaves
the job untouched. -/
theorem Job.Push_disabled (j : Job) (r : requestPayload) (h : j.enabled = false) :
    Job.Push j r = (j, some errJobDisabled) := by
  simp [Job.Push, h]

/-- Pushing on an enabled job succeeds, bumps the wrapped counter and
appends the record at the tail of shard `j.pushIdx`. -/
theorem Job.Push_enabled (j : Job) (r : requestPayload) (h : j.enabled = true) :
    Job.Push j r =
      ({ j with qIndex := (j.qIndex + 1) % u32size
                queues := j.queues.set j.pushIdx (j.queues.getD j.pushIdx [] ++ [r]) },
       none) := by
  simp [Job.Push, Queue.Push, h]

/-- The computed shard index is bounded by the mask. -/
theorem Job.pushIdx_le_qMask (j : Job) : j.pushIdx ≤ j.qMask :=
  Nat.and_le_right

/-! ### List helpers for `set`/`getD` bookkeeping -/

/-- Reading back the freshly set entry. -/
theorem getD_set_self (l : List (List requestPayload)) (i : Nat)
    (hi : i < l.length) (a : List requestPayload) :
    (l.set i a).getD i [] = a := by
  simp [List.getD, List.getElem?_set_eq_of_lt a hi]

/-- Entries other than the set one are unchanged. -/
theorem getD_set_ne (l : List (List requestPayload)) (i k : Nat) (h : i ≠ k)
    (a : List requestPayload) :
    (l.set i a).getD k [] = l.getD k [] := by
  simp [List.getD, List.getElem?_set_ne h]

/-- Appending one record to the `i`-th entry adds `c` to the sum of any
per-entry statistic `f` that `++ [r]` increases by `c` (used with
`f = length, c = 1` and `f = count a`). -/
theorem sum_map_set_getD_append (f : List requestPayload → Nat) (c : Nat)
    (r : requestPayload) (hf : ∀ x, f (x ++ [r]) = f x + c) :
    ∀ (l : List (List requestPayload)) (i : Nat), i < l.length →
      ((l.set i (l.getD i [] ++ [r])).map f).sum = (l.map f).sum + c := by
  intro l
  induction l with
  | nil =>
    intro i hi
    simp at hi
  | cons x xs ih =>
    intro i hi
    cases i with
    | zero =>
      simp only [List.getD_cons_zero, List.set_cons_zero, List.map_cons,
        List.sum_cons, hf]
      omega
    | succ n =>
      simp only [List.getD_cons_succ, List.set_cons_succ, List.map_cons,
        List.sum_cons]
      rw [ih n (by simpa using hi)]
      omega


/-! ### Push preservation lemmas -/

/-- `Push` never changes the enabled flag. -/
theorem Job.Push_enabled_eq (j : Job) (r : requestPayload) :
    ((Job.Push j r).1).enabled = j.enabled := by
  simp only [Job.Push]
  split <;> rfl

/-- `Push` never changes the mask. -/
theorem Job.Push_qMask_eq (j : Job) (r : requestPayload) :
    ((Job.Push j r).1).qMask = j.qMask := by
  simp only [Job.Push]
  split <;> rfl

/-- `Push` never changes the number of shards. -/
theorem Job.Push_queues_length (j : Job) (r : requestPayload) :
    ((Job.Push j r).1).queues.length = j.queues.length := by
  simp only [Job.Push]
  split
  · simp [Queue.Push]
  · rfl

/-- `pushAll` never changes the enabled flag. -/
theorem pushAll_enabled (rs : List requestPayload) : ∀ j : Job,
    (pushAll j rs).enabled = j.enabled := by
  induction rs with
  | nil => intro j; rfl
  | cons r rs ih =>
    intro j
    simp only [pushAll, List.foldl_cons] at ih ⊢
    rw [ih, Job.Push_enabled_eq]

/-- `pushAll` never changes the mask. -/
theorem pushAll_qMask (rs : List requestPayload) : ∀ j : Job,
    (pushAll j rs).qMask = j.qMask := by
  induction rs with
  | nil => intro j; rfl
  | cons r rs ih =>
    intro j
    simp only [pushAll, List.foldl_cons] at ih ⊢
    rw [ih, Job.Push_qMask_eq]

/-- `pushAll` never changes the number of shards. -/
theorem pushAll_queues_length (rs : List requestPayload) : ∀ j : Job,
    (pushAll j rs).queues.length = j.queues.length := by
  induction rs with
  | nil => intro j; rfl
  | cons r rs ih =>
    intro j
    simp only [pushAll, List.foldl_cons] at ih ⊢
    rw [ih, Job.Push_queues_length]

/-- On an enabled job the distribution counter after `rs` pushes is the
starting counter plus the number of pushes, wrapped at `2^32`. -/
theorem pushAll_qIndex (rs : List requestPayload) : ∀ j : Job,
    j.enabled = true → j.qIndex < u32size →
    (pushAll j rs).qIndex = (j.qIndex + rs.length) % u32size := by
  induction rs with
  | nil =>
    intro j _ hlt
    simp [pushAll, Nat.mod_eq_of_lt hlt]
  | cons r rs ih =>
    intro j he hlt
    simp only [pushAll, List.foldl_cons] at ih ⊢
    rw [Job.Push_enabled j r he]
    rw [ih _ (by simpa using he) (Nat.mod_lt _ (by simp [u32size]))]
    simp only [Nat.mod_add_mod, List.length_cons]
    congr 1
    omega

/-! ### Record accounting across shards -/

/-- How many times record `a` is pending across all shards of `j`. -/
def Job.countRecord (j : Job) (a : requestPayload) : Nat :=
  (j.queues.map (fun q => q.count a)).sum

/-- A successful push adds the pushed record once, to one shard, and
nothing else: the multiset of pending records grows by exactly `{r}`. -/
theorem Job.Push_countRecord (j : Job) (r a : requestPayload)
    (he : j.enabled = true) (hm : j.qMask < j.queues.length) :
    ((Job.Push j r).1).countRecord a
      = j.countRecord a + (if r = a then 1 else 0) := by
  rw [Job.Push_enabled j r he]
  exact sum_map_set_getD_append (fun q => q.count a) _ r
    (fun x => by
      by_cases hr : r = a
      · simp [List.count_append, hr]
      · simp [List.count_append, List.count_cons, hr])
    j.queues j.pushIdx (lt_of_le_of_lt (Job.pushIdx_le_qMask j) hm)

/-- Pushing `rs` onto an enabled job adds exactly the multiset of `rs` to
the pending records. -/
theorem pushAll_countRecord (rs : List requestPayload) (a : requestPayload) :
    ∀ j : Job, j.enabled = true → j.qMask < j.queues.length →
    (pushAll j rs).countRecord a = j.countRecord a + rs.count a := by
  induction rs with
  | nil =>
    intro j _ _
    simp [pushAll]
  | cons r rs ih =>
    intro j he hm
    simp only [pushAll, List.foldl_cons] at ih ⊢
    rw [ih _ (by rw [Job.Push_enabled_eq, he])
      (by rw [Job.Push_qMask_eq, Job.Push_queues_length]; exact hm)]
    rw [Job.Push_countRecord j r a he hm]
    by_cases hr : r = a
    · simp only [List.count_cons, hr]
      simp
      omega
    · simp only [List.count_cons]
      simp [hr]

/-! ### Lemmas about `Job.flush` -/

/-- The job after a flush: every shard is left empty, the flag, counter and
mask untouched. -/
theorem Job.flush_state (save : List requestPayload → Option String) (j : Job) :
    (Job.flush save j).1
      = { j with queues := List.replicate j.queues.length [] } := by
  simp [Job.flush, Queue.Clear_eq, Function.comp_def]

/-- The backend calls of a flush: the chunked save calls of each shard's
drained rows, shard by shard in order. -/
theorem Job.flush_calls (save : List requestPayload → Option String) (j : Job) :
    (Job.flush save j).2.1
      = (j.queues.map (fun q => (flushQueueLoop save q).1)).flatten := by
  simp [Job.flush, Queue.Clear_eq, Function.comp_def]

/-- All records handed to the backend during a flush, in call order,
are exactly the pending records of the shards, in shard order. -/
theorem Job.flush_calls_flatten (save : List requestPayload → Option String)
    (j : Job) :
    (Job.flush save j).2.1.flatten = j.queues.flatten := by
  rw [Job.flush_calls]
  induction j.queues with
  | nil => simp
  | cons q qs ih =>
    simp only [List.map_cons, List.flatten_cons, List.flatten_append,
      flushQueueLoop_flatten, ih]


/-- A flush never changes the enabled flag. -/
theorem Job.flush_enabled_eq (save : List requestPayload → Option String)
    (j : Job) : ((Job.flush save j).1).enabled = j.enabled := by
  rw [Job.flush_state]

/-- Pushing any number of records onto a disabled job changes nothing. -/
theorem pushAll_disabled (rs : List requestPayload) : ∀ j : Job,
    j.enabled = false → pushAll j rs = j := by
  induction rs with
  | nil => intro j _; rfl
  | cons r rs ih =>
    intro j h
    simp only [pushAll, List.foldl_cons] at ih ⊢
    rw [Job.Push_disabled j r h]
    exact ih j h

/-- Repeated `Queue.Push`, as a single operation (push order preserved). -/
def pushSeq (q : List requestPayload) (rs : List requestPayload) :
    List requestPayload :=
  rs.foldl (fun s r => (Queue.Push s r).1) q

/-- Repeated shard pushes append the pushed sequence at the tail. -/
theorem pushSeq_eq_append (rs : List requestPayload) : ∀ q : List requestPayload,
    pushSeq q rs = q ++ rs := by
  induction rs with
  | nil => intro q; simp [pushSeq]
  | cons r rs ih =>
    intro q
    simp only [pushSeq, List.foldl_cons] at ih ⊢
    rw [ih (Queue.Push q r).1]
    simp [Queue.Push]

/-! ### Facts about the freshly created job -/

/-- A fresh job is enabled. -/
theorem NewJob_enabled : NewJob.enabled = true := rfl

/-- A fresh job's mask is 15. -/
theorem NewJob_qMask : NewJob.qMask = 15 := rfl

/-- A fresh job has 16 shards. -/
theorem NewJob_queues_length : NewJob.queues.length = 16 := rfl

/-- A fresh job has no pending records. -/
theorem NewJob_countRecord (a : requestPayload) : NewJob.countRecord a = 0 := by
  simp [NewJob, NewQueues, NewQueue, Job.countRecord]

/-! ## Claim theorems -/

/-- C1: after any sequence of `N` pushes to the fresh (enabled) engine
followed by one flush, the backend observes exactly `N` records in total
across all its save calls — in fact the records handed over are a
permutation of the pushed ones (no record lost, none counted twice),
however the pushes were distributed across the shards and whatever the
backend answers. -/
theorem spec_C1_flush_observes_all_pushes (rs : List requestPayload)
    (save : List requestPayload → Option String) :
    ((Job.flush save (pushAll NewJob rs)).2.1.map List.length).sum = rs.length
    ∧ ((Job.flush save (pushAll NewJob rs)).2.1.flatten).Perm rs := by
  have hcount : ∀ a : requestPayload,
      ((Job.flush save (pushAll NewJob rs)).2.1.flatten).count a = rs.count a := by
    intro a
    rw [Job.flush_calls_flatten, List.count_flatten]
    have h := pushAll_countRecord rs a NewJob rfl (by decide)
    rw [NewJob_countRecord] at h
    simpa [Job.countRecord] using h
  have hperm := List.perm_iff_count.2 hcount
  exact ⟨by rw [← List.length_flatten]; exact hperm.length_eq, hperm⟩

/-- C2: flushing a drained batch of `M` records from one shard makes
exactly `⌈M/1000⌉` backend save calls (in natural-number arithmetic,
`(M + 999) / 1000`), each with at most 1000 records, and the concatenation
of the chunks in call order is the drained sequence (no overlap, no gaps);
in particular a batch of `M = 0` records makes zero backend calls. -/
theorem spec_C2_chunking (save : List requestPayload → Option String)
    (rows : List requestPayload) :
    ((flushQueueLoop save rows).1).length = (rows.length + 999) / 1000
    ∧ (∀ c ∈ (flushQueueLoop save rows).1, c.length ≤ 1000)
    ∧ ((flushQueueLoop save rows).1).flatten = rows
    ∧ (rows = [] → (flushQueueLoop save rows).1 = []) := by
  refine ⟨flushQueueLoop_length save rows,
    fun c hc => (flushQueueLoop_chunk_len save rows c hc).2,
    flushQueueLoop_flatten save rows, ?_⟩
  rintro rfl
  simp [flushQueueLoop]

/-- Witness for C2 at concrete inputs: one record yields one call holding
exactly that record, and the empty batch yields no call. -/
theorem spec_C2_chunking_witness :
    ((flushQueueLoop (fun _ => none) [⟨"a"⟩]).1).length = 1
    ∧ ((flushQueueLoop (fun _ => none) [⟨"a"⟩]).1).flatten = [⟨"a"⟩]
    ∧ (flushQueueLoop (fun _ => none) ([] : List requestPayload)).1 = [] := by
  refine ⟨?_, (spec_C2_chunking (fun _ => none) [⟨"a"⟩]).2.2.1,
    (spec_C2_chunking (fun _ => none) []).2.2.2 rfl⟩
  have h := (spec_C2_chunking (fun _ => none) [⟨"a"⟩]).1
  simpa using h

/-- C4: drain round-trips with push: `Clear` returns all pending records
in push order, leaves the shard with pending length zero, and pushing a
sequence onto an empty shard then draining returns exactly that
sequence. -/
theorem spec_C4_drain_roundtrip (q rs : List requestPayload) :
    (Queue.Clear q).1 = q
    ∧ Queue.Len (Queue.Clear q).2 = 0
    ∧ (Queue.Clear (pushSeq [] rs)).1 = rs := by
  refine ⟨?_, ?_, ?_⟩
  · rw [Queue.Clear_eq]
  · rw [Queue.Clear_eq]
    rfl
  · rw [pushSeq_eq_append, Queue.Clear_eq]
    simp

/-- C6: a failing backend save call aborts nothing: the chunks handed to
the backend and the state after the flush (all shards emptied, the failed
chunk dropped and not re-queued) are identical whatever errors the backend
returns, and every drained record is handed to the backend exactly once;
the flush never feeds an error back into a shard or a push result. -/
theorem spec_C6_save_error_isolated (j : Job)
    (s₁ s₂ : List requestPayload → Option String) :
    (Job.flush s₁ j).2.1 = (Job.flush s₂ j).2.1
    ∧ (Job.flush s₁ j).1 = (Job.flush s₂ j).1
    ∧ (Job.flush s₁ j).2.1.flatten = j.queues.flatten
    ∧ (∀ q ∈ (Job.flush s₁ j).1.queues, q = []) := by
  refine ⟨?_, ?_, Job.flush_calls_flatten s₁ j, ?_⟩
  · rw [Job.flush_calls, Job.flush_calls,
      funext (flushQueueLoop_calls_indep s₁ s₂)]
  · rw [Job.flush_state, Job.flush_state]
  · rw [Job.flush_state]
    intro q hq
    exact List.eq_of_mem_replicate hq

/-- C10: in every state the engine reaches by pushing (any record
sequence after creation), the computed shard index is strictly below the
length of the 16-entry shard array, so the `queues[idx]` lookup in `Push`
is in bounds. -/
theorem spec_C10_shard_index_in_bounds (rs : List requestPayload) :
    Job.pushIdx (pushAll NewJob rs) < (pushAll NewJob rs).queues.length
    ∧ (pushAll NewJob rs).queues.length = 16 := by
  have h1 : (pushAll NewJob rs).qMask = 15 := by
    rw [pushAll_qMask]
    rfl
  have h2 : (pushAll NewJob rs).queues.length = 16 := by
    rw [pushAll_queues_length]
    rfl
  have h3 := Job.pushIdx_le_qMask (pushAll NewJob rs)
  exact ⟨by omega, h2⟩

/-- C3: `Push` returns the "job disabled" error exactly when the enabled
flag is false, and then the whole job — in particular every shard — is
untouched; when the flag is true, `Push` succeeds (nil error) and appends
the record at the tail of exactly one shard, growing that shard's pending
length by one and leaving every other shard unchanged. -/
theorem spec_C3_push_disabled_iff (j : Job) (r : requestPayload)
    (hm : j.qMask < j.queues.length) :
    (j.enabled = false → Job.Push j r = (j, some errJobDisabled))
    ∧ (j.enabled = true →
        (Job.Push j r).2 = none
        ∧ ∃ i, i < j.queues.length
            ∧ ((Job.Push j r).1).queues.getD i [] = j.queues.getD i [] ++ [r]
            ∧ (((Job.Push j r).1).queues.getD i []).length
                = (j.queues.getD i []).length + 1
            ∧ ∀ k, k ≠ i →
                ((Job.Push j r).1).queues.getD k [] = j.queues.getD k []) := by
  constructor
  · exact fun h => Job.Push_disabled j r h
  · intro he
    have hi : j.pushIdx < j.queues.length :=
      lt_of_le_of_lt (Job.pushIdx_le_qMask j) hm
    rw [Job.Push_enabled j r he]
    refine ⟨rfl, j.pushIdx, hi, ?_, ?_, ?_⟩
    · exact getD_set_self _ _ hi _
    · rw [getD_set_self _ _ hi _]
      simp
    · intro k hk
      exact getD_set_ne _ _ _ (Ne.symm hk) _

/-- Witness for C3: on the fresh (enabled) 16-shard job the mask hypothesis
holds and pushing succeeds with a nil error. -/
theorem spec_C3_push_disabled_iff_witness :
    NewJob.qMask < NewJob.queues.length
    ∧ (Job.Push NewJob ⟨"a"⟩).2 = none :=
  ⟨by decide,
   ((spec_C3_push_disabled_iff NewJob ⟨"a"⟩ (by decide)).2 rfl).1⟩

/-- C7: invariant: the record accepted by a successful push lands in
exactly one shard — that shard is extended at its tail, every other shard
is untouched, and the total multiplicity of the record across all shards
goes up by exactly one — and it can only leave by a drain: `Clear` removes
exactly the shard's contents and leaves nothing behind. -/
theorem spec_C7_record_in_exactly_one_shard (j : Job) (r : requestPayload)
    (he : j.enabled = true) (hm : j.qMask < j.queues.length) :
    (∃ i, i < j.queues.length
       ∧ ((Job.Push j r).1).queues.getD i [] = j.queues.getD i [] ++ [r]
       ∧ ∀ k, k ≠ i →
           ((Job.Push j r).1).queues.getD k [] = j.queues.getD k [])
    ∧ ((Job.Push j r).1).countRecord r = j.countRecord r + 1
    ∧ (∀ q : List requestPayload,
        (Queue.Clear q).1 = q ∧ (Queue.Clear q).2 = []) := by
  refine ⟨?_, ?_, ?_⟩
  · have hi : j.pushIdx < j.queues.length :=
      lt_of_le_of_lt (Job.pushIdx_le_qMask j) hm
    rw [Job.Push_enabled j r he]
    exact ⟨j.pushIdx, hi, getD_set_self _ _ hi _,
      fun k hk => getD_set_ne _ _ _ (Ne.symm hk) _⟩
  · rw [Job.Push_countRecord j r r he hm]
    simp
  · intro q
    rw [Queue.Clear_eq]
    exact ⟨rfl, rfl⟩

/-- Witness for C7: pushing `"a"` onto the fresh job raises its total
multiplicity across the shards from 0 to 1. -/
theorem spec_C7_record_in_exactly_one_shard_witness :
    NewJob.enabled = true
    ∧ NewJob.qMask < NewJob.queues.length
    ∧ ((Job.Push NewJob ⟨"a"⟩).1).countRecord ⟨"a"⟩
        = NewJob.countRecord ⟨"a"⟩ + 1 :=
  ⟨rfl, by decide,
   (spec_C7_record_in_exactly_one_shard NewJob ⟨"a"⟩ rfl (by decide)).2.1⟩

/-- C8: the k-th successful push since creation (k starting at 1, here
`k = rs.length + 1` after `rs` prior pushes) goes to shard
`(k mod 2^32) &&& 15`: the uint32 counter after `rs` pushes is
`rs.length mod 2^32`, it wraps silently without affecting acceptance (the
push still succeeds), the routed shard is extended at its tail (push order
within a shard is preserved) and every other shard is unchanged. -/
theorem spec_C8_kth_push_routing (rs : List requestPayload)
    (r : requestPayload) :
    (pushAll NewJob rs).qIndex = rs.length % u32size
    ∧ (Job.Push (pushAll NewJob rs) r).2 = none
    ∧ ((Job.Push (pushAll NewJob rs) r).1).queues.getD
         (((rs.length + 1) % u32size) &&& 15) []
        = (pushAll NewJob rs).queues.getD
            (((rs.length + 1) % u32size) &&& 15) [] ++ [r]
    ∧ ∀ k, k ≠ ((rs.length + 1) % u32size) &&& 15 →
        ((Job.Push (pushAll NewJob rs) r).1).queues.getD k []
          = (pushAll NewJob rs).queues.getD k [] := by
  have he : (pushAll NewJob rs).enabled = true := by
    rw [pushAll_enabled]
    rfl
  have hq : (pushAll NewJob rs).qIndex = rs.length % u32size := by
    rw [pushAll_qIndex rs NewJob rfl (by norm_num [NewJob, u32size])]
    norm_num [NewJob]
  have hmask : (pushAll NewJob rs).qMask = 15 := by
    rw [pushAll_qMask]
    rfl
  have hlen : (pushAll NewJob rs).queues.length = 16 := by
    rw [pushAll_queues_length]
    rfl
  have hidx : (pushAll NewJob rs).pushIdx
      = ((rs.length + 1) % u32size) &&& 15 := by
    simp only [Job.pushIdx, hq, hmask, Nat.mod_add_mod]
  have hi : (pushAll NewJob rs).pushIdx < (pushAll NewJob rs).queues.length := by
    have h := Job.pushIdx_le_qMask (pushAll NewJob rs)
    omega
  refine ⟨hq, ?_, ?_, ?_⟩
  · rw [Job.Push_enabled _ r he]
  · rw [Job.Push_enabled _ r he, ← hidx]
    exact getD_set_self _ _ hi _
  · intro k hk
    rw [Job.Push_enabled _ r he]
    refine getD_set_ne _ _ _ ?_ _
    rw [hidx]
    exact Ne.symm hk

/-- Witness for C8 at a concrete input: after one push the counter is 1,
and the second push (k = 2) succeeds, lands at the tail of shard 2, and
leaves shard 0 unchanged. -/
theorem spec_C8_kth_push_routing_witness :
    (pushAll NewJob [⟨"a"⟩]).qIndex = 1 % u32size
    ∧ (Job.Push (pushAll NewJob [⟨"a"⟩]) ⟨"b"⟩).2 = none
    ∧ ((Job.Push (pushAll NewJob [⟨"a"⟩]) ⟨"b"⟩).1).queues.getD 0 []
        = (pushAll NewJob [⟨"a"⟩]).queues.getD 0 [] :=
  ⟨(spec_C8_kth_push_routing [⟨"a"⟩] ⟨"b"⟩).1,
   (spec_C8_kth_push_routing [⟨"a"⟩] ⟨"b"⟩).2.1,
   (spec_C8_kth_push_routing [⟨"a"⟩] ⟨"b"⟩).2.2.2 0 (by decide)⟩

/-- Witness for C6 at a concrete input: the calls handed to the backend by
a flush of the fresh job are the same under an always-failing and an
always-succeeding backend. -/
theorem spec_C6_save_error_isolated_witness :
    (Job.flush (fun _ => some "boom") NewJob).2.1
      = (Job.flush (fun _ => none) NewJob).2.1 :=
  (spec_C6_save_error_isolated NewJob (fun _ => some "boom") (fun _ => none)).1

/-- C5: on the first cancellation after any number of timer ticks, the
run loop leaves Running exactly once: the action trace is the tick flushes
followed by exactly `disable`, then one final flush, then the completion
signal, and nothing after (later events are never processed); the final
state is disabled, it stays disabled, and every subsequent push — however
many are attempted — fails with the disabled error and changes nothing. -/
theorem spec_C5_shutdown_once (save : List requestPayload → Option String)
    (ticks rest : List RunEvent) (j : Job)
    (h : ∀ e ∈ ticks, e = RunEvent.tick) :
    (runLoop save (ticks ++ RunEvent.cancel :: rest) j).2
      = List.replicate ticks.length RunAction.flushAll
        ++ [RunAction.disable, RunAction.flushAll, RunAction.signalDone]
    ∧ ((runLoop save (ticks ++ RunEvent.cancel :: rest) j).1).enabled = false
    ∧ (∀ r, Job.Push (runLoop save (ticks ++ RunEvent.cancel :: rest) j).1 r
        = ((runLoop save (ticks ++ RunEvent.cancel :: rest) j).1,
           some errJobDisabled))
    ∧ (∀ rs, pushAll (runLoop save (ticks ++ RunEvent.cancel :: rest) j).1 rs
        = (runLoop save (ticks ++ RunEvent.cancel :: rest) j).1) := by
  induction ticks generalizing j with
  | nil =>
    have hen : ((runLoop save ([] ++ RunEvent.cancel :: rest) j).1).enabled
        = false := by
      simp only [List.nil_append, runLoop]
      rw [Job.flush_enabled_eq]
    refine ⟨?_, hen, fun r => Job.Push_disabled _ r hen,
      fun rs => pushAll_disabled rs _ hen⟩
    simp [runLoop]
  | cons e ticks ih =>
    have het : e = RunEvent.tick := h e (List.mem_cons_self e ticks)
    subst het
    have h' : ∀ x ∈ ticks, x = RunEvent.tick :=
      fun x hx => h x (List.mem_cons_of_mem _ hx)
    obtain ⟨h1, h2, h3, h4⟩ := ih ((Job.flush save j).1) h'
    simp only [List.cons_append, runLoop]
    refine ⟨?_, h2, h3, h4⟩
    simp only [List.length_cons, List.replicate_succ, List.cons_append,
      List.append_eq]
    rw [h1]

/-- Witness for C5: one tick then a cancel on the fresh job yields the
trace flush, disable, final flush, done — and a disabled final state. -/
theorem spec_C5_shutdown_once_witness :
    (∀ e ∈ [RunEvent.tick], e = RunEvent.tick)
    ∧ (runLoop (fun _ => none) [RunEvent.tick, RunEvent.cancel] NewJob).2
        = [RunAction.flushAll, RunAction.disable, RunAction.flushAll,
           RunAction.signalDone]
    ∧ ((runLoop (fun _ => none)
          [RunEvent.tick, RunEvent.cancel] NewJob).1).enabled = false := by
  have h : ∀ e ∈ [RunEvent.tick], e = RunEvent.tick := by decide
  obtain ⟨h1, h2, _, _⟩ :=
    spec_C5_shutdown_once (fun _ => none) [RunEvent.tick] [] NewJob h
  exact ⟨h, by simpa using h1, by simpa using h2⟩

/-- C9 counterexample: with the engine disabled, `Push` does return the
disabled-engine error, yet the `/ping` handler discards that return value
and answers HTTP 200 "pong" — the submitter observes success, not a
rejection, so the claim that the failure is surfaced synchronously is
false at this input. -/
theorem spec_C9_counterexample :
    (Job.Push { NewJob with enabled := false } ⟨"a"⟩).2 = some errJobDisabled
    ∧ pingHandler true { NewJob with enabled := false } ⟨"a"⟩
        = ({ NewJob with enabled := false }, 200, "pong") :=
  ⟨rfl, rfl⟩

/-- C9 amended: once shutdown has begun, `push` itself fails with the
disabled-engine error, but the inbound `/ping` handler ignores `Push`'s
return value and responds 200 "pong" regardless, so the rejection is
swallowed rather than surfaced to the original submitter. -/
theorem spec_C9_amended_handler_swallows (j : Job) (r : requestPayload)
    (h : j.enabled = false) :
    (Job.Push j r).2 = some errJobDisabled
    ∧ pingHandler true j r = (j, 200, "pong") := by
  refine ⟨?_, ?_⟩
  · rw [Job.Push_disabled j r h]
  · simp [pingHandler, Job.Push_disabled j r h]

/-- Witness for C9's amended claim on a concrete disabled job. -/
theorem spec_C9_amended_handler_swallows_witness :
    ({ NewJob with enabled := false } : Job).enabled = false
    ∧ (Job.Push { NewJob with enabled := false } ⟨"a"⟩).2
        = some errJobDisabled :=
  ⟨rfl,
   (spec_C9_amended_handler_swallows { NewJob with enabled := false }
     ⟨"a"⟩ rfl).1⟩
